import Mathlib

/-!
Verification of the offline recommendation engine
(`OfflineRecommendationEngine`): tokenization, hashed term-frequency
embeddings, keyword extraction, cosine-plus-keyword similarity scoring,
the corpus index with its load/ingest lifecycle, and the related-section
query pipeline.  Numbers computed by the engine are modelled exactly:
term weights are rationals, and the similarity score (which involves a
square root) is a real number.
-/

namespace OfflineRec

set_option maxRecDepth 100000

/-! ### Tokenization -/

/-- Word characters of the `\w` character class: ASCII letters, digits and
underscore. -/
def isWordChar (c : Char) : Bool := c.isAlphanum || c == '_'

/-- Splits a character list into maximal runs of word characters, carrying
the (reversed) current run in the accumulator.  This models
`text.match(/\b\w+\b/g)`, whose matches are exactly the maximal runs of
word characters. -/
def tokenizeAux : List Char → List Char → List (List Char)
  | [], acc => if acc.isEmpty then [] else [acc.reverse]
  | c :: cs, acc =>
    if isWordChar c then tokenizeAux cs (c :: acc)
    else if acc.isEmpty then tokenizeAux cs [] else acc.reverse :: tokenizeAux cs []

/-- The token stream of `text.toLowerCase().match(/\b\w+\b/g) || []`. -/
def wordsOf (text : String) : List String :=
  (tokenizeAux (text.toList.map Char.toLower) []).map List.asString

/-! ### Occurrence counting (insertion-ordered map) -/

/-- One `wordCount.set(word, (wordCount.get(word) || 0) + 1)` step on an
insertion-ordered association list (the model of a JS `Map`). -/
def bumpCount (m : List (String × Nat)) (w : String) : List (String × Nat) :=
  if m.any (fun p => p.1 == w) then
    m.map (fun p => if p.1 == w then (p.1, p.2 + 1) else p)
  else m ++ [(w, 1)]

/-- Occurrence counts of the tokens of length `> 2`, in first-encounter
order, as built by the `words.forEach` loop of `generateSimpleEmbedding`. -/
def wordCounts (ws : List String) : List (String × Nat) :=
  ws.foldl (fun m w => if w.length > 2 then bumpCount m w else m) []

/-! ### The 32-bit rolling hash -/

/-- Wraps an integer into the signed 32-bit range, as JS bitwise operators
do. -/
def toInt32 (n : Int) : Int := (n + 2 ^ 31) % 2 ^ 32 - 2 ^ 31

/-- One step `hash = ((hash << 5) - hash) + char; hash = hash & hash` of
`simpleHash`. -/
def hashStep (h : Int) (c : Nat) : Int := toInt32 (toInt32 (h * 32) - h + c)

/-- The `simpleHash` function: rolling 32-bit polynomial hash followed by
`Math.abs`. -/
def simpleHash (w : String) : Nat :=
  (w.toList.foldl (fun h c => hashStep h c.toNat) 0).natAbs

/-! ### Embedding generation -/

/-- One `embedding[hash] += q` update on a bucket vector. -/
def addToBucket (v : List ℚ) (i : Nat) (q : ℚ) : List ℚ :=
  v.set i (v.getD i 0 + q)

/-- The loop body of `generateSimpleEmbedding`:
`embedding[simpleHash(word) % 100] += count / denom`. -/
def embedStep (denom : Nat) (v : List ℚ) (wc : String × Nat) : List ℚ :=
  addToBucket v (simpleHash wc.1 % 100) ((wc.2 : ℚ) / (denom : ℚ))

/-- The `for (const [word, count] of wordCount.entries())` loop with its
counter `index` and the `if (index > 50) break` exit. -/
def embedLoop (denom : Nat) : List (String × Nat) → Nat → List ℚ → List ℚ
  | [], _, v => v
  | wc :: rest, index, v =>
    let v' := embedStep denom v wc
    if index + 1 > 50 then v' else embedLoop denom rest (index + 1) v'

/-- The `generateSimpleEmbedding` function.  The divisor of every term
weight is `words.length`, the length of the token stream before the
length-`> 2` filter. -/
def generateSimpleEmbedding (text : String) : List ℚ :=
  let words := wordsOf text
  embedLoop words.length (wordCounts words) 0 (List.replicate 100 (0 : ℚ))

/-- Folding a list of token counts into the bucket vector with no
iteration cap (used to state truncation properties of `embedLoop`). -/
def embedFold (denom : Nat) (entries : List (String × Nat)) : List ℚ :=
  entries.foldl (embedStep denom) (List.replicate 100 (0 : ℚ))

/-- Modelled from the spec: the embedding that folds only the first `k`
distinct surviving tokens into the vector, the reading under which the
processing cap is `k` ("at most the first 50 distinct tokens encountered
are folded into the vector"). -/
def embeddingCapped (k : Nat) (text : String) : List ℚ :=
  embedFold (wordsOf text).length ((wordCounts (wordsOf text)).take k)

/-- The number of tokens that pass the length-`> 2` filter. -/
def filteredTokenCount (text : String) : Nat :=
  ((wordsOf text).filter (fun w => w.length > 2)).length

/-- Modelled from the spec: the embedding whose term-frequency divisor is
the count of length-filtered tokens ("divide by the number of
length-filtered tokens considered"). -/
def embeddingFilteredDenom (text : String) : List ℚ :=
  embedLoop (filteredTokenCount text) (wordCounts (wordsOf text)) 0
    (List.replicate 100 (0 : ℚ))

/-! ### Keyword extraction -/

/-- The fixed stop-word set of `isStopWord`. -/
def stopWords : List String :=
  ["the", "a", "an", "and", "or", "but", "in", "on", "at", "to", "for",
   "of", "with", "by", "this", "that", "these", "those", "is", "are",
   "was", "were", "be", "been", "have", "has", "had", "will", "would",
   "could", "should"]

/-- The `isStopWord` membership test. -/
def isStopWord (w : String) : Bool := stopWords.contains w

/-- The frequency map built by the `words.forEach` loop of
`extractKeywords` (stop words dropped before counting). -/
def keywordFreqs (ws : List String) : List (String × Nat) :=
  ws.foldl (fun m w => if isStopWord w then m else bumpCount m w) []

/-- The `extractKeywords` function: tokens of `/\b\w{4,}\b/g` (maximal
word-character runs of length at least 4), stop words removed, counted,
sorted by descending frequency, top 10 token names. -/
def extractKeywords (text : String) : List String :=
  let words := (wordsOf text).filter (fun w => 4 ≤ w.length)
  let freq := keywordFreqs words
  ((freq.insertionSort (fun a b => b.2 ≤ a.2)).take 10).map (fun p => p.1)

/-! ### Similarity scoring -/

/-- Dot product of two bucket vectors, as computed by the
`for (let i = 0; ...)` loop of `calculateSimilarity` (the engine only ever
applies it to vectors of equal length 100). -/
def dotQ (a b : List ℚ) : ℚ := (List.zipWith (fun x y => x * y) a b).sum

/-- The `calculateSimilarity` function:
`0.7 * cosine + 0.3 * keywordOverlap`, with the cosine component equal to
0 when either squared norm is 0 (the falsiness test
`norm1 && norm2`), and the keyword denominator floored at 1 by
`Math.max(keywords1.length, keywords2.length, 1)`. -/
noncomputable def calculateSimilarity (e1 e2 : List ℚ) (k1 k2 : List String) : ℝ :=
  let dotProduct := dotQ e1 e2
  let norm1 := dotQ e1 e1
  let norm2 := dotQ e2 e2
  let cosineSim : ℝ :=
    if norm1 ≠ 0 ∧ norm2 ≠ 0 then
      (dotProduct : ℝ) / (Real.sqrt (norm1 : ℝ) * Real.sqrt (norm2 : ℝ))
    else 0
  let overlap : Nat := (k1.filter (fun k => k2.contains k)).length
  let keywordSim : ℚ := (overlap : ℚ) / max (k1.length : ℚ) (max (k2.length : ℚ) 1)
  cosineSim * (7 / 10) + (keywordSim : ℝ) * (3 / 10)

/-! ### Data model of the corpus -/

/-- One element of `pageEmbeddings` in a `DocumentEmbedding`. -/
structure PageFeature where
  pageNumber : Nat
  text : String
  embedding : List ℚ
  keywords : List String
deriving DecidableEq

/-- The `DocumentEmbedding` record stored per document. -/
structure DocumentEmbedding where
  id : String
  name : String
  pageEmbeddings : List PageFeature
deriving DecidableEq

/-- The `{id, name}` part of a `PDFDocument` that `addDocument` reads. -/
structure PDFDocument where
  id : String
  name : String

/-- The placeholder position rectangle of a result. -/
structure SectionPosition where
  x : ℚ
  y : ℚ
  width : ℚ
  height : ℚ

/-- The `RelatedSection` result record. -/
structure RelatedSection where
  id : String
  documentId : String
  documentName : String
  pageNumber : Nat
  content : String
  snippet : String
  relevanceScore : ℝ
  position : SectionPosition

/-- The mutable state of the engine singleton: the `documents` map
(modelled as an insertion-ordered association list, as a JS `Map`
iterates in insertion order) and the `isInitialized` flag. -/
structure EngineState where
  documents : List (String × DocumentEmbedding)
  isInitialized : Bool
deriving DecidableEq

/-- The state of a freshly constructed engine. -/
def emptyEngine : EngineState := ⟨[], false⟩

/-- A `Map.set` step on the documents map: overwrite in place when the key
is present, append otherwise. -/
def insertDoc (m : List (String × DocumentEmbedding)) (k : String)
    (v : DocumentEmbedding) : List (String × DocumentEmbedding) :=
  if m.any (fun p => p.1 == k) then
    m.map (fun p => if p.1 == k then (k, v) else p)
  else m ++ [(k, v)]

/-! ### Lifecycle operations -/

/-- The `initialize` method, named `initializeEngine` here because `initialize` is a Lean keyword.  Its interaction with the outside world is the
read-and-parse of the persisted payload, modelled by `stored`: `none` when
nothing is stored, `Except.ok docs` when the payload parses to a document
list, `Except.error ()` when reading or parsing throws.  A thrown
exception is caught after the `forEach`, so in that case neither the
documents map nor `isInitialized` is updated. -/
def initializeEngine (st : EngineState)
    (stored : Option (Except Unit (List DocumentEmbedding))) : EngineState :=
  if st.isInitialized then st
  else
    match stored with
    | none => { st with isInitialized := true }
    | some (Except.ok docs) =>
        { documents := docs.foldl (fun m d => insertDoc m d.id d) st.documents,
          isInitialized := true }
    | some (Except.error _) => st

/-- The `DocumentEmbedding` value assembled by `addDocument`: one entry per
element of `textContent`, page number `index + 1`, stored text truncated to
1000 characters. -/
def buildEntry (doc : PDFDocument) (textContent : List String) : DocumentEmbedding :=
  { id := doc.id, name := doc.name,
    pageEmbeddings := textContent.enum.map (fun p =>
      { pageNumber := p.1 + 1
        text := p.2.take 1000
        embedding := generateSimpleEmbedding p.2
        keywords := extractKeywords p.2 }) }

/-- The `addDocument` method (its in-memory effect; `saveToStorage` only
mirrors the map out and never changes it). -/
def addDocument (st : EngineState) (doc : PDFDocument) (textContent : List String) :
    EngineState :=
  { st with documents := insertDoc st.documents doc.id (buildEntry doc textContent) }

/-! ### Query pipeline -/

/-- JS string disjunction `a || b` (the empty string is falsy). -/
def jsOr (a b : String) : String := if a = "" then b else a

/-- The positional page access `pageEmbeddings[currentPage - 1]?.text`.
For `currentPage = 0` the JS index is `-1` and the access yields
`undefined`. -/
def pageTextAt (doc : DocumentEmbedding) (p : Nat) : Option String :=
  if p = 0 then none else (doc.pageEmbeddings.get? (p - 1)).map (fun pg => pg.text)

/-- Resolution of the query source:
`selectedText || currentDoc.pageEmbeddings[currentPage - 1]?.text || ''`. -/
def queryTextOf (sel : Option String) (doc : DocumentEmbedding) (p : Nat) : String :=
  jsOr (sel.getD "") ((pageTextAt doc p).getD "")

/-- The result record pushed for one candidate page. -/
def mkSection (docId : String) (doc : DocumentEmbedding) (page : PageFeature)
    (sim : ℝ) : RelatedSection :=
  { id := docId ++ "-" ++ toString page.pageNumber
    documentId := docId
    documentName := doc.name
    pageNumber := page.pageNumber
    content := page.text
    snippet := page.text.take 150 ++ "..."
    relevanceScore := sim
    position := ⟨0, 0, 100, 20⟩ }

/-- The double loop over all documents and pages: skip the
`(currentDocId, currentPage)` pair, score every other page, and keep the
pairs whose similarity exceeds the `0.3` threshold. -/
noncomputable def candidatesFor (docs : List (String × DocumentEmbedding))
    (d : String) (p : Nat) (queryEmbedding : List ℚ) (queryKeywords : List String) :
    List (RelatedSection × ℝ) :=
  docs.flatMap (fun de =>
    de.2.pageEmbeddings.filterMap (fun page =>
      if de.1 = d ∧ page.pageNumber = p then none
      else if calculateSimilarity queryEmbedding page.embedding queryKeywords
          page.keywords > 3 / 10 then
        some (mkSection de.1 de.2 page
          (calculateSimilarity queryEmbedding page.embedding queryKeywords
            page.keywords),
          calculateSimilarity queryEmbedding page.embedding queryKeywords
            page.keywords)
      else none))

/-- Sorting by descending score, truncation to 5, and projection to the
section records. -/
noncomputable def rankCandidates (cands : List (RelatedSection × ℝ)) :
    List RelatedSection :=
  ((cands.insertionSort (fun a b => b.2 ≤ a.2)).take 5).map (fun c => c.1)

/-- The body of `findRelatedSections` after initialization: the
`currentDocId` lookup with its early `return []`, query resolution, and
the scan-score-rank pipeline over the documents map. -/
noncomputable def searchRelated (docs : List (String × DocumentEmbedding))
    (d : String) (p : Nat) (sel : Option String) : List RelatedSection :=
  match docs.lookup d with
  | none => []
  | some currentDoc =>
    let queryText := queryTextOf sel currentDoc p
    rankCandidates
      (candidatesFor docs d p (generateSimpleEmbedding queryText)
        (extractKeywords queryText))

/-- The `findRelatedSections` method: `await this.initialize()` followed by
the search over the resulting documents map. -/
noncomputable def findRelatedSections (st : EngineState)
    (stored : Option (Except Unit (List DocumentEmbedding)))
    (currentDocId : String) (currentPage : Nat) (selectedText : Option String) :
    List RelatedSection :=
  searchRelated (initializeEngine st stored).documents currentDocId currentPage selectedText

/-- Modelled from the spec: the query pipeline that scans and scores every
stored page against an explicit query text without the existence guard on
`currentDocumentId` ("every stored page ... is scanned and scored, even
when currentDocumentId is not present in the corpus"). -/
noncomputable def scanAllPages (docs : List (String × DocumentEmbedding))
    (d : String) (p : Nat) (query : String) : List RelatedSection :=
  rankCandidates
    (candidatesFor docs d p (generateSimpleEmbedding query) (extractKeywords query))

/-- A text with 52 distinct surviving tokens (each of length 3), used to
exercise the token-processing cap of `generateSimpleEmbedding`. -/
def bigText : String :=
  String.intercalate " " ((List.range 52).map
    (fun i => "t" ++ toString (i / 10) ++ toString (i % 10)))

/-- A one-document corpus: document id `"b"`, display name `"B"`, one page
with text `"abcd"`. -/
def corpusB : EngineState := addDocument emptyEngine ⟨"b", "B"⟩ ["abcd"]

end OfflineRec

namespace OfflineRec

set_option maxRecDepth 100000

/-! ### Helper lemmas about the documents map -/

theorem lookup_map_replace (k : String) (v : DocumentEmbedding) :
    ∀ m : List (String × DocumentEmbedding), m.any (fun p => p.1 == k) = true →
      (m.map (fun p => if p.1 == k then (k, v) else p)).lookup k = some v := by
  intro m
  induction m with
  | nil => intro h; simp at h
  | cons p rest ih =>
    intro h
    cases hpk : (p.1 == k) with
    | true =>
      have h1 : (if (p.1 == k) = true then (k, v) else p) = (k, v) := by
        simp [hpk]
      rw [List.map_cons, h1, List.lookup_cons]
      simp
    | false =>
      have h1 : (if (p.1 == k) = true then (k, v) else p) = p := by
        simp [hpk]
      have hk : (k == p.1) = false := by
        simp only [beq_eq_false_iff_ne] at hpk ⊢
        exact fun hc => hpk hc.symm
      have hrest : rest.any (fun p => p.1 == k) = true := by
        simp only [List.any_cons, hpk, Bool.false_or] at h
        exact h
      rw [List.map_cons, h1, List.lookup_cons, hk]
      exact ih hrest

theorem lookup_append_self (k : String) (v : DocumentEmbedding) :
    ∀ m : List (String × DocumentEmbedding), m.any (fun p => p.1 == k) = false →
      (m ++ [(k, v)]).lookup k = some v := by
  intro m
  induction m with
  | nil =>
    intro _
    rw [List.nil_append, List.lookup_cons]
    simp
  | cons p rest ih =>
    intro h
    simp only [List.any_cons, Bool.or_eq_false_iff] at h
    have hk : (k == p.1) = false := by
      have h1 := h.1
      simp only [beq_eq_false_iff_ne] at h1 ⊢
      exact fun hc => h1 hc.symm
    rw [List.cons_append, List.lookup_cons, hk]
    exact ih h.2

theorem lookup_insertDoc (m : List (String × DocumentEmbedding)) (k : String)
    (v : DocumentEmbedding) : (insertDoc m k v).lookup k = some v := by
  unfold insertDoc
  cases hany : m.any (fun p => p.1 == k) with
  | true =>
    rw [if_pos rfl]
    exact lookup_map_replace k v m hany
  | false =>
    rw [if_neg (by simp)]
    exact lookup_append_self k v m hany

theorem buildEntry_length (doc : PDFDocument) (textContent : List String) :
    (buildEntry doc textContent).pageEmbeddings.length = textContent.length := by
  simp [buildEntry]

/-! ### C1 -/

/-- C1 counterexample: `addDocument` does not skip empty text segments.
Ingesting the single empty segment `[""]` stores a `PageFeatureSet` for it
(one stored page, with page number 1), and ingesting the empty segment
list `[]` stores a document entry whose `pages` sequence is empty. -/
theorem addDocument_keeps_empty_segments :
    ((((addDocument emptyEngine ⟨"d", "n"⟩ [""]).documents.lookup "d").map
        (fun e => e.pageEmbeddings.map (fun pg => pg.pageNumber))) =
      some [1]) ∧
    ((((addDocument emptyEngine ⟨"d", "n"⟩ []).documents.lookup "d").map
        (fun e => e.pageEmbeddings.length)) = some 0) := by
  constructor <;> rfl

/-- C1 amended: every call `addDocument(document, textSegments)` stores one
`PageFeatureSet` per element of `textSegments`, empty segments included
(none is skipped), so the stored `pages` sequence has exactly the length
of `textSegments` and is empty exactly when `textSegments` is empty. -/
theorem addDocument_stores_one_page_per_segment (st : EngineState)
    (doc : PDFDocument) (textContent : List String) :
    ((addDocument st doc textContent).documents.lookup doc.id =
      some (buildEntry doc textContent)) ∧
    (buildEntry doc textContent).pageEmbeddings.length = textContent.length ∧
    ((buildEntry doc textContent).pageEmbeddings = [] ↔ textContent = []) := by
  refine ⟨lookup_insertDoc _ _ _, buildEntry_length _ _, ?_⟩
  constructor
  · intro h
    have h2 := congrArg List.length h
    rw [buildEntry_length] at h2
    simpa using List.eq_nil_of_length_eq_zero (by simpa using h2)
  · intro h
    simp [buildEntry, h]

/-! ### C3 -/

/-- C3 counterexample: a failed read/parse of the persisted payload does
not leave the engine initialized — the exception is caught before
`isInitialized = true` is reached, so the flag stays `false`. -/
theorem initializeEngine_failure_not_ready :
    (initializeEngine emptyEngine (some (Except.error ()))).isInitialized = false := by
  rfl

/-- C3 amended: a load that finds no payload or parses it successfully
leaves the engine initialized, and a second load on an already-initialized
engine is a no-op; but a load whose read/parse fails leaves the engine
state unchanged — still uninitialized — so the next call retries the load
instead of finding a ready engine with an empty corpus. -/
theorem initializeEngine_characterization (st : EngineState)
    (stored : Option (Except Unit (List DocumentEmbedding))) :
    (st.isInitialized = true → initializeEngine st stored = st) ∧
    ((initializeEngine st stored).isInitialized = true ↔
      st.isInitialized = true ∨ stored ≠ some (Except.error ())) ∧
    (st.isInitialized = false → stored = some (Except.error ()) →
      initializeEngine st stored = st) := by
  refine ⟨?_, ?_, ?_⟩
  · intro h; simp [initializeEngine, h]
  · by_cases h : st.isInitialized
    · simp [initializeEngine, h]
    · simp only [initializeEngine, h, if_neg, Bool.false_eq_true, if_false]
      match stored with
      | none => simp [h]
      | some (Except.ok docs) => simp [h]
      | some (Except.error e) => simp [h]
  · intro h1 h2
    subst h2
    simp [initializeEngine, h1]

/-- C3 witness: the amended characterization applied to concrete states,
with the hypotheses discharged there: a second load on an initialized
engine is a no-op, and a failed load on a fresh engine leaves it
unchanged. -/
theorem initializeEngine_characterization_witness :
    initializeEngine ⟨[], true⟩ none = ⟨[], true⟩ ∧
    initializeEngine emptyEngine (some (Except.error ())) = emptyEngine :=
  ⟨(initializeEngine_characterization ⟨[], true⟩ none).1 rfl,
   (initializeEngine_characterization emptyEngine
      (some (Except.error ()))).2.2 rfl rfl⟩

/-! ### C10 -/

/-- C10: the stored `pageEmbeddings` sequence has one entry per text
segment, the entry at 0-based position `i` has `pageNumber = i + 1`, and
therefore the positional access at index `currentPage - 1` (for
`1 ≤ currentPage ≤ textSegments.length`) returns exactly the page whose
`pageNumber` equals `currentPage`. -/
theorem addDocument_page_numbering (st : EngineState) (doc : PDFDocument)
    (textContent : List String) (p : Nat) (h1 : 1 ≤ p)
    (h2 : p ≤ textContent.length) :
    ∃ e, (addDocument st doc textContent).documents.lookup doc.id = some e ∧
      e.pageEmbeddings.length = textContent.length ∧
      (∀ i (hi : i < e.pageEmbeddings.length),
        (e.pageEmbeddings.get ⟨i, hi⟩).pageNumber = i + 1) ∧
      ∃ pg, e.pageEmbeddings.get? (p - 1) = some pg ∧ pg.pageNumber = p := by
  refine ⟨buildEntry doc textContent, lookup_insertDoc _ _ _,
    buildEntry_length _ _, ?_, ?_⟩
  · intro i hi
    have hi' : i < textContent.length := by
      simpa [buildEntry_length] using hi
    simp [buildEntry, List.get_eq_getElem]
  · have hp : p - 1 < textContent.length := by omega
    refine ⟨⟨p, (textContent.get ⟨p - 1, hp⟩).take 1000,
      generateSimpleEmbedding (textContent.get ⟨p - 1, hp⟩),
      extractKeywords (textContent.get ⟨p - 1, hp⟩)⟩, ?_, rfl⟩
    simp only [buildEntry, List.get?_eq_getElem?, List.getElem?_map,
      List.getElem?_enum]
    rw [List.getElem?_eq_getElem hp]
    simp [List.get_eq_getElem]
    omega

/-- C10 witness: the page-numbering theorem applied to a concrete
two-segment ingestion at page 2, with both bounds discharged there. -/
theorem addDocument_page_numbering_witness :
    ∃ e, (addDocument emptyEngine ⟨"d", "n"⟩ ["x", "y"]).documents.lookup
        (PDFDocument.mk "d" "n").id = some e ∧
      e.pageEmbeddings.length = (["x", "y"] : List String).length ∧
      (∀ i (hi : i < e.pageEmbeddings.length),
        (e.pageEmbeddings.get ⟨i, hi⟩).pageNumber = i + 1) ∧
      ∃ pg, e.pageEmbeddings.get? (2 - 1) = some pg ∧ pg.pageNumber = 2 :=
  addDocument_page_numbering emptyEngine ⟨"d", "n"⟩ ["x", "y"] 2
    (by decide) (by decide)

end OfflineRec

namespace OfflineRec

set_option maxRecDepth 100000

/-! ### Helper lemmas about the embedding fold -/

theorem length_embedStep (denom : Nat) (v : List ℚ) (wc : String × Nat) :
    (embedStep denom v wc).length = v.length := by
  simp [embedStep, addToBucket]

theorem length_foldl_embedStep (denom : Nat) :
    ∀ (entries : List (String × Nat)) (v : List ℚ),
      (entries.foldl (embedStep denom) v).length = v.length := by
  intro entries
  induction entries with
  | nil => intro v; rfl
  | cons wc rest ih =>
    intro v
    rw [List.foldl_cons, ih, length_embedStep]

theorem length_embedLoop (denom : Nat) :
    ∀ (entries : List (String × Nat)) (index : Nat) (v : List ℚ),
      (embedLoop denom entries index v).length = v.length := by
  intro entries
  induction entries with
  | nil => intro index v; rfl
  | cons wc rest ih =>
    intro index v
    rw [embedLoop]
    by_cases h : index + 1 > 50
    · rw [if_pos h, length_embedStep]
    · rw [if_neg h, ih, length_embedStep]

theorem embedLoop_eq_fold_take (denom : Nat) :
    ∀ (entries : List (String × Nat)) (index : Nat) (v : List ℚ), index ≤ 50 →
      embedLoop denom entries index v =
        (entries.take (51 - index)).foldl (embedStep denom) v := by
  intro entries
  induction entries with
  | nil => intro index v _; simp [embedLoop]
  | cons wc rest ih =>
    intro index v h
    rw [embedLoop]
    by_cases h50 : index + 1 > 50
    · have hi : index = 50 := by omega
      subst hi
      rw [if_pos h50]
      norm_num
    · rw [if_neg h50]
      rw [ih (index + 1) _ (by omega)]
      have h2 : 51 - index = (51 - (index + 1)) + 1 := by omega
      rw [h2, List.take_succ_cons, List.foldl_cons]

theorem getD_replicate_zero (j : Nat) :
    (List.replicate 100 (0 : ℚ)).getD j 0 = 0 := by
  rw [List.getD_eq_getElem?_getD, List.getElem?_replicate]
  by_cases h : j < 100
  · rw [if_pos h]; rfl
  · rw [if_neg h]; rfl

theorem getD_addToBucket_eq (v : List ℚ) (i : Nat) (q : ℚ) (h : i < v.length) :
    (addToBucket v i q).getD i 0 = v.getD i 0 + q := by
  unfold addToBucket
  rw [List.getD_eq_getElem?_getD, List.getElem?_set, if_pos rfl, if_pos h]
  rfl

theorem getD_addToBucket_ne (v : List ℚ) (i j : Nat) (q : ℚ) (hij : i ≠ j) :
    (addToBucket v i q).getD j 0 = v.getD j 0 := by
  unfold addToBucket
  rw [List.getD_eq_getElem?_getD, List.getElem?_set, if_neg hij,
    ← List.getD_eq_getElem?_getD]

theorem getD_foldl_embedStep (denom : Nat) (j : Nat) :
    ∀ (entries : List (String × Nat)) (v : List ℚ), v.length = 100 → j < 100 →
      (entries.foldl (embedStep denom) v).getD j 0 =
        v.getD j 0 + (entries.map (fun wc =>
          if simpleHash wc.1 % 100 = j then (wc.2 : ℚ) / (denom : ℚ) else 0)).sum := by
  intro entries
  induction entries with
  | nil => intro v _ _; simp
  | cons wc rest ih =>
    intro v hv hj
    rw [List.foldl_cons, ih (embedStep denom v wc) (by rw [length_embedStep]; exact hv) hj,
      List.map_cons, List.sum_cons]
    by_cases hb : simpleHash wc.1 % 100 = j
    · rw [if_pos hb]
      show (addToBucket v (simpleHash wc.1 % 100) _).getD j 0 + _ = _
      rw [hb, getD_addToBucket_eq v j _ (by rw [hv]; exact hj)]
      ring
    · rw [if_neg hb]
      show (addToBucket v (simpleHash wc.1 % 100) _).getD j 0 + _ = _
      rw [getD_addToBucket_ne v _ j _ hb]
      ring

/-! ### C4 -/

/-- C4 counterexample: on a text with 52 distinct surviving tokens, the
loop of `generateSimpleEmbedding` folds the 51st distinct token into the
vector (the `index > 50` break fires only after 51 entries have been
processed), so the result differs from the embedding that folds only the
first 50 distinct tokens. -/
theorem generateSimpleEmbedding_folds_51st_token :
    generateSimpleEmbedding bigText ≠ embeddingCapped 50 bigText := by
  have hsplit : (wordCounts (wordsOf bigText)).take 51 =
      (wordCounts (wordsOf bigText)).take 50 ++ [("t50", 1)] := by decide
  have hlen52 : (wordsOf bigText).length = 52 := by decide
  intro h
  unfold generateSimpleEmbedding at h
  rw [embedLoop_eq_fold_take _ _ 0 _ (by omega)] at h
  unfold embeddingCapped embedFold at h
  rw [show (51 : Nat) - 0 = 51 from rfl, hsplit, List.foldl_append] at h
  have hVlen : (((wordCounts (wordsOf bigText)).take 50).foldl
      (embedStep (wordsOf bigText).length)
      (List.replicate 100 (0 : ℚ))).length = 100 := by
    rw [length_foldl_embedStep, List.length_replicate]
  have hb : simpleHash "t50" % 100 < 100 := Nat.mod_lt _ (by norm_num)
  have h2 := congrArg (fun w : List ℚ => w.getD (simpleHash "t50" % 100) 0) h
  simp only [List.foldl_cons, List.foldl_nil] at h2
  rw [show ∀ v : List ℚ, embedStep (wordsOf bigText).length v ("t50", 1) =
      addToBucket v (simpleHash "t50" % 100)
        ((1 : ℚ) / ((wordsOf bigText).length : ℚ)) from fun v => rfl] at h2
  rw [getD_addToBucket_eq _ _ _ (by rw [hVlen]; exact hb)] at h2
  rw [add_right_eq_self, hlen52] at h2
  norm_num at h2

/-- C4 amended: the loop of `generateSimpleEmbedding` folds at most the
first 51 distinct surviving tokens (in encounter order) into the vector;
all distinct tokens beyond the first 51 contribute nothing. -/
theorem generateSimpleEmbedding_caps_at_51 (text : String) :
    generateSimpleEmbedding text = embeddingCapped 51 text := by
  unfold generateSimpleEmbedding embeddingCapped embedFold
  rw [embedLoop_eq_fold_take _ _ 0 _ (by omega)]

/-! ### C5 -/

/-- C5 counterexample: in `"ab abc"` the only surviving token `"abc"` has
count 1, one token (`"ab"`) is dropped by the length filter, and the
stored weight is `1 / 2` — count divided by the unfiltered token-stream
length 2 — not `1 / 1` as the filtered-count denominator would give. -/
theorem generateSimpleEmbedding_denominator_unfiltered :
    generateSimpleEmbedding "ab abc" ≠ embeddingFilteredDenom "ab abc" := by
  have e1 : wordCounts (wordsOf "ab abc") = [("abc", 1)] := by decide
  have e2 : (wordsOf "ab abc").length = 2 := by decide
  have e3 : filteredTokenCount "ab abc" = 1 := by decide
  have e4 : simpleHash "abc" % 100 = 54 := by decide
  have hL : (generateSimpleEmbedding "ab abc").getD 54 0 = 1 / 2 := by
    unfold generateSimpleEmbedding
    rw [embedLoop_eq_fold_take _ _ 0 _ (by omega), e1, e2,
      getD_foldl_embedStep _ _ _ _ (List.length_replicate _ _) (by omega),
      getD_replicate_zero]
    simp [e4]
  have hR : (embeddingFilteredDenom "ab abc").getD 54 0 = 1 := by
    unfold embeddingFilteredDenom
    rw [embedLoop_eq_fold_take _ _ 0 _ (by omega), e1, e3,
      getD_foldl_embedStep _ _ _ _ (List.length_replicate _ _) (by omega),
      getD_replicate_zero]
    simp [e4]
  intro h
  rw [h, hR] at hL
  norm_num at hL

/-- C5 amended: every folded token contributes its occurrence count
divided by the length of the unfiltered token stream (`words.length`,
counting also the tokens dropped by the length filter): each coordinate
of the embedding is the sum of `count / words.length` over the folded
tokens that hash to that bucket. -/
theorem generateSimpleEmbedding_bucket_weights (text : String) (j : Nat)
    (hj : j < 100) :
    (generateSimpleEmbedding text).getD j 0 =
      (((wordCounts (wordsOf text)).take 51).map (fun wc =>
        if simpleHash wc.1 % 100 = j then
          (wc.2 : ℚ) / ((wordsOf text).length : ℚ)
        else 0)).sum := by
  unfold generateSimpleEmbedding
  rw [embedLoop_eq_fold_take _ _ 0 _ (by omega),
    getD_foldl_embedStep _ _ _ _ (List.length_replicate _ _) hj,
    getD_replicate_zero, zero_add]

/-- C5 witness: the bucket-weight characterization applied to the concrete
text `"abc"` and bucket 54, with the bound discharged there. -/
theorem generateSimpleEmbedding_bucket_weights_witness :
    (generateSimpleEmbedding "abc").getD 54 0 =
      (((wordCounts (wordsOf "abc")).take 51).map (fun wc =>
        if simpleHash wc.1 % 100 = 54 then
          (wc.2 : ℚ) / ((wordsOf "abc").length : ℚ)
        else 0)).sum :=
  generateSimpleEmbedding_bucket_weights "abc" 54 (by decide)

end OfflineRec

namespace OfflineRec

set_option maxRecDepth 100000

/-! ### Helper lemmas for tokenization of whitespace-only text -/

theorem isWordChar_toLower_of_whitespace (c : Char) (h : c.isWhitespace = true) :
    isWordChar c.toLower = false := by
  have h4 : ((c = ' ' ∨ c = '\t') ∨ c = '\x0d') ∨ c = '\n' := by
    simpa [Char.isWhitespace] using h
  rcases h4 with ((h | h) | h) | h <;> subst h <;> decide

theorem tokenizeAux_nonword :
    ∀ cs : List Char, (∀ c ∈ cs, isWordChar c = false) → tokenizeAux cs [] = [] := by
  intro cs
  induction cs with
  | nil => intro _; rfl
  | cons c rest ih =>
    intro h
    have hc := h c (List.mem_cons_self c rest)
    rw [tokenizeAux, hc]
    rw [if_neg (by simp), if_pos List.isEmpty_nil]
    exact ih fun x hx => h x (List.mem_cons_of_mem c hx)

theorem wordsOf_whitespace (text : String)
    (h : text.toList.all (fun c => c.isWhitespace) = true) : wordsOf text = [] := by
  have h0 : tokenizeAux (text.toList.map Char.toLower) [] = [] := by
    apply tokenizeAux_nonword
    intro c hc
    rw [List.mem_map] at hc
    obtain ⟨a, ha, rfl⟩ := hc
    exact isWordChar_toLower_of_whitespace a (List.all_eq_true.mp h a ha)
  unfold wordsOf
  rw [h0]
  rfl

/-! ### Nonnegativity of the embedding -/

theorem getD_nonneg_of_forall (v : List ℚ) (i : Nat) (hv : ∀ x ∈ v, 0 ≤ x) :
    0 ≤ v.getD i 0 := by
  rw [List.getD_eq_getElem?_getD]
  cases hgi : v[i]? with
  | none => simp
  | some a => simpa using hv a (List.getElem?_mem hgi)

theorem nonneg_embedStep (denom : Nat) (v : List ℚ) (wc : String × Nat)
    (hv : ∀ x ∈ v, 0 ≤ x) : ∀ x ∈ embedStep denom v wc, 0 ≤ x := by
  intro x hx
  have hx' : x ∈ v.set (simpleHash wc.1 % 100)
      (v.getD (simpleHash wc.1 % 100) 0 + ((wc.2 : ℚ) / (denom : ℚ))) := hx
  rcases List.mem_or_eq_of_mem_set hx' with h | h
  · exact hv x h
  · subst h
    exact add_nonneg (getD_nonneg_of_forall v _ hv)
      (div_nonneg (Nat.cast_nonneg _) (Nat.cast_nonneg _))

theorem nonneg_embedLoop (denom : Nat) :
    ∀ (entries : List (String × Nat)) (index : Nat) (v : List ℚ),
      (∀ x ∈ v, 0 ≤ x) → ∀ x ∈ embedLoop denom entries index v, 0 ≤ x := by
  intro entries
  induction entries with
  | nil => intro index v hv; simpa [embedLoop] using hv
  | cons wc rest ih =>
    intro index v hv
    rw [embedLoop]
    by_cases h : index + 1 > 50
    · rw [if_pos h]
      exact nonneg_embedStep denom v wc hv
    · rw [if_neg h]
      exact ih _ _ (nonneg_embedStep denom v wc hv)

/-! ### C8 -/

/-- C8: the feature extractor is total (both functions are plain
terminating recursions over the string); for every input the embedding has
exactly 100 coordinates, each nonnegative, and for empty or
whitespace-only input the embedding is the all-zero vector and the keyword
list is empty. -/
theorem extract_total_shape (text : String) :
    (generateSimpleEmbedding text).length = 100 ∧
    (generateSimpleEmbedding text).Forall (fun q => 0 ≤ q) ∧
    (text.toList.all (fun c => c.isWhitespace) = true →
      generateSimpleEmbedding text = List.replicate 100 (0 : ℚ) ∧
      extractKeywords text = []) := by
  refine ⟨?_, ?_, ?_⟩
  · unfold generateSimpleEmbedding
    rw [length_embedLoop, List.length_replicate]
  · rw [List.forall_iff_forall_mem]
    unfold generateSimpleEmbedding
    exact nonneg_embedLoop _ _ _ _
      (fun x hx => le_of_eq (List.eq_of_mem_replicate hx).symm)
  · intro h
    have hw := wordsOf_whitespace text h
    constructor
    · unfold generateSimpleEmbedding
      rw [hw]
      rfl
    · unfold extractKeywords
      rw [hw]
      rfl

/-- C8 witness: the shape theorem applied to the whitespace-only input
`" "`, with the whitespace hypothesis discharged there. -/
theorem extract_total_shape_witness :
    (" ".toList.all (fun c => c.isWhitespace) = true) ∧
    (generateSimpleEmbedding " " = List.replicate 100 (0 : ℚ) ∧
      extractKeywords " " = []) :=
  ⟨by decide, (extract_total_shape " ").2.2 (by decide)⟩

/-! ### Dot products and the Cauchy-Schwarz bound -/

theorem dotQ_nil_left (b : List ℚ) : dotQ [] b = 0 := rfl

theorem dotQ_nil_right (a : List ℚ) : dotQ a [] = 0 := by
  cases a <;> rfl

theorem dotQ_cons (x y : ℚ) (s t : List ℚ) :
    dotQ (x :: s) (y :: t) = x * y + dotQ s t := rfl

theorem dotQ_self_nonneg : ∀ a : List ℚ, 0 ≤ dotQ a a := by
  intro a
  induction a with
  | nil => exact le_refl 0
  | cons x s ih =>
    rw [dotQ_cons]
    exact add_nonneg (mul_self_nonneg x) ih

theorem dotQ_nonneg :
    ∀ a b : List ℚ, (∀ x ∈ a, 0 ≤ x) → (∀ x ∈ b, 0 ≤ x) → 0 ≤ dotQ a b := by
  intro a
  induction a with
  | nil => intro b _ _; exact le_refl 0
  | cons x s ih =>
    intro b ha hb
    cases b with
    | nil => rw [dotQ_nil_right]
    | cons y t =>
      rw [dotQ_cons]
      refine add_nonneg (mul_nonneg (ha x (by simp)) (hb y (by simp))) ?_
      exact ih t (fun z hz => ha z (by simp [hz])) (fun z hz => hb z (by simp [hz]))

theorem dotQ_sq_le : ∀ a b : List ℚ, dotQ a b ^ 2 ≤ dotQ a a * dotQ b b := by
  intro a
  induction a with
  | nil =>
    intro b
    simp [dotQ_nil_left]
  | cons x s ih =>
    intro b
    cases b with
    | nil =>
      rw [dotQ_nil_right, dotQ_nil_right]
      simp
    | cons y t =>
      have h := ih t
      have hA := dotQ_self_nonneg s
      have hB := dotQ_self_nonneg t
      have hAB : 0 ≤ dotQ s s * dotQ t t - dotQ s t ^ 2 := by linarith
      rw [dotQ_cons, dotQ_cons, dotQ_cons]
      rcases eq_or_lt_of_le hB with hB0 | hBpos
      · have hd : dotQ s t = 0 := by
          have h2 : dotQ s t ^ 2 ≤ 0 := by nlinarith
          have h3 := sq_nonneg (dotQ s t)
          exact pow_eq_zero_iff (by norm_num) |>.mp (le_antisymm h2 h3)
        rw [hd, ← hB0]
        nlinarith [mul_nonneg hA (sq_nonneg y)]
      · nlinarith [sq_nonneg (x * dotQ t t - y * dotQ s t),
          mul_nonneg (sq_nonneg y) hAB, mul_nonneg (le_of_lt hBpos) hAB]

/-! ### C9 -/

theorem calculateSimilarity_def (e1 e2 : List ℚ) (k1 k2 : List String) :
    calculateSimilarity e1 e2 k1 k2 =
      (if dotQ e1 e1 ≠ 0 ∧ dotQ e2 e2 ≠ 0 then
        ((dotQ e1 e2 : ℚ) : ℝ) /
          (Real.sqrt ((dotQ e1 e1 : ℚ) : ℝ) * Real.sqrt ((dotQ e2 e2 : ℚ) : ℝ))
      else 0) * (7 / 10) +
      ((((k1.filter (fun k => k2.contains k)).length : ℚ) /
        max (k1.length : ℚ) (max (k2.length : ℚ) 1) : ℚ) : ℝ) * (3 / 10) := rfl

/-- C9: for equal-length vectors with nonnegative coordinates (as all
engine embeddings are) the combined score lies in the closed interval
`[0, 1]`; both divisions are guarded (zero norms short-circuit the cosine
term to 0, and the keyword denominator is floored at 1), so the score is
total. -/
theorem score_in_unit_interval (e1 e2 : List ℚ) (k1 k2 : List String)
    (_hlen : e1.length = e2.length)
    (h1 : e1.Forall (fun q => 0 ≤ q)) (h2 : e2.Forall (fun q => 0 ≤ q)) :
    0 ≤ calculateSimilarity e1 e2 k1 k2 ∧ calculateSimilarity e1 e2 k1 k2 ≤ 1 := by
  rw [List.forall_iff_forall_mem] at h1 h2
  rw [calculateSimilarity_def]
  have hden : (1 : ℚ) ≤ max (k1.length : ℚ) (max (k2.length : ℚ) 1) :=
    le_trans (le_max_right _ _) (le_max_right _ _)
  have hK0 : (0 : ℚ) ≤ ((k1.filter (fun k => k2.contains k)).length : ℚ) /
      max (k1.length : ℚ) (max (k2.length : ℚ) 1) :=
    div_nonneg (Nat.cast_nonneg _) (by linarith)
  have hK1 : ((k1.filter (fun k => k2.contains k)).length : ℚ) /
      max (k1.length : ℚ) (max (k2.length : ℚ) 1) ≤ 1 := by
    rw [div_le_one (by linarith)]
    calc ((k1.filter (fun k => k2.contains k)).length : ℚ)
        ≤ (k1.length : ℚ) := by exact_mod_cast List.length_filter_le _ _
      _ ≤ _ := le_max_left _ _
  have hK0' : (0 : ℝ) ≤ ((((k1.filter (fun k => k2.contains k)).length : ℚ) /
      max (k1.length : ℚ) (max (k2.length : ℚ) 1) : ℚ) : ℝ) := by exact_mod_cast hK0
  have hK1' : ((((k1.filter (fun k => k2.contains k)).length : ℚ) /
      max (k1.length : ℚ) (max (k2.length : ℚ) 1) : ℚ) : ℝ) ≤ 1 := by exact_mod_cast hK1
  by_cases hn : dotQ e1 e1 ≠ 0 ∧ dotQ e2 e2 ≠ 0
  · rw [if_pos hn]
    have hd0 : (0 : ℚ) ≤ dotQ e1 e2 := dotQ_nonneg e1 e2 h1 h2
    have hn1 : (0 : ℚ) < dotQ e1 e1 :=
      lt_of_le_of_ne (dotQ_self_nonneg e1) (Ne.symm hn.1)
    have hn2 : (0 : ℚ) < dotQ e2 e2 :=
      lt_of_le_of_ne (dotQ_self_nonneg e2) (Ne.symm hn.2)
    have hs1 : (0 : ℝ) < Real.sqrt ((dotQ e1 e1 : ℚ) : ℝ) :=
      Real.sqrt_pos.2 (by exact_mod_cast hn1)
    have hs2 : (0 : ℝ) < Real.sqrt ((dotQ e2 e2 : ℚ) : ℝ) :=
      Real.sqrt_pos.2 (by exact_mod_cast hn2)
    have hcs : ((dotQ e1 e2 : ℚ) : ℝ) ≤
        Real.sqrt ((dotQ e1 e1 : ℚ) : ℝ) * Real.sqrt ((dotQ e2 e2 : ℚ) : ℝ) := by
      rw [← Real.sqrt_mul (by exact_mod_cast le_of_lt hn1)]
      rw [show (((dotQ e1 e1 : ℚ) : ℝ) * ((dotQ e2 e2 : ℚ) : ℝ)) =
          (((dotQ e1 e1 * dotQ e2 e2 : ℚ)) : ℝ) by push_cast; ring]
      rw [Real.le_sqrt (by exact_mod_cast hd0) (by exact_mod_cast
        (mul_nonneg (le_of_lt hn1) (le_of_lt hn2)))]
      exact_mod_cast dotQ_sq_le e1 e2
    have hcos1 : ((dotQ e1 e2 : ℚ) : ℝ) /
        (Real.sqrt ((dotQ e1 e1 : ℚ) : ℝ) * Real.sqrt ((dotQ e2 e2 : ℚ) : ℝ)) ≤ 1 :=
      (div_le_one (mul_pos hs1 hs2)).2 hcs
    have hcos0 : (0 : ℝ) ≤ ((dotQ e1 e2 : ℚ) : ℝ) /
        (Real.sqrt ((dotQ e1 e1 : ℚ) : ℝ) * Real.sqrt ((dotQ e2 e2 : ℚ) : ℝ)) :=
      div_nonneg (by exact_mod_cast hd0) (le_of_lt (mul_pos hs1 hs2))
    constructor <;> nlinarith
  · rw [if_neg hn]
    constructor <;> nlinarith

/-- C9 witness: the score-bounds theorem applied to the concrete vectors
`[1]` and `[1]` with empty keyword lists, with the length and
nonnegativity hypotheses discharged there. -/
theorem score_in_unit_interval_witness :
    (([1] : List ℚ).Forall (fun q => 0 ≤ q)) ∧
    (0 ≤ calculateSimilarity [1] [1] [] [] ∧
      calculateSimilarity [1] [1] [] [] ≤ 1) :=
  ⟨by norm_num [List.Forall],
   score_in_unit_interval [1] [1] [] [] rfl (by norm_num [List.Forall])
     (by norm_num [List.Forall])⟩

end OfflineRec

namespace OfflineRec

set_option maxRecDepth 100000

/-! ### Helper lemmas for the query pipeline -/

theorem findRelatedSections_eq (st : EngineState)
    (stored : Option (Except Unit (List DocumentEmbedding))) (d : String)
    (p : Nat) (sel : Option String) :
    findRelatedSections st stored d p sel =
      searchRelated (initializeEngine st stored).documents d p sel := rfl

theorem searchRelated_eq (docs : List (String × DocumentEmbedding)) (d : String)
    (p : Nat) (sel : Option String) :
    searchRelated docs d p sel =
      match docs.lookup d with
      | none => []
      | some doc =>
          rankCandidates (candidatesFor docs d p
            (generateSimpleEmbedding (queryTextOf sel doc p))
            (extractKeywords (queryTextOf sel doc p))) := rfl

theorem mem_candidatesFor (docs : List (String × DocumentEmbedding)) (d : String)
    (p : Nat) (qe : List ℚ) (qk : List String) (x : RelatedSection × ℝ)
    (hx : x ∈ candidatesFor docs d p qe qk) :
    (3 / 10 : ℝ) < x.2 ∧ x.1.relevanceScore = x.2 ∧
      ¬(x.1.documentId = d ∧ x.1.pageNumber = p) := by
  unfold candidatesFor at hx
  rw [List.mem_flatMap] at hx
  obtain ⟨de, _, hx⟩ := hx
  rw [List.mem_filterMap] at hx
  obtain ⟨page, _, hpage⟩ := hx
  by_cases hskip : de.1 = d ∧ page.pageNumber = p
  · rw [if_pos hskip] at hpage
    exact absurd hpage (by simp)
  · rw [if_neg hskip] at hpage
    by_cases hsim : calculateSimilarity qe page.embedding qk page.keywords > 3 / 10
    · rw [if_pos hsim] at hpage
      obtain rfl := Option.some_injective _ hpage
      exact ⟨hsim, rfl, hskip⟩
    · rw [if_neg hsim] at hpage
      exact absurd hpage (by simp)

theorem mem_rankCandidates (cands : List (RelatedSection × ℝ)) (s : RelatedSection)
    (hs : s ∈ rankCandidates cands) : ∃ x ∈ cands, x.1 = s := by
  unfold rankCandidates at hs
  rw [List.mem_map] at hs
  obtain ⟨x, hx, rfl⟩ := hs
  refine ⟨x, ?_, rfl⟩
  have h1 : x ∈ cands.insertionSort (fun a b => b.2 ≤ a.2) :=
    List.take_subset _ _ hx
  exact (List.perm_insertionSort _ cands).mem_iff.mp h1

theorem rank_length_le (cands : List (RelatedSection × ℝ)) :
    (rankCandidates cands).length ≤ 5 := by
  unfold rankCandidates
  rw [List.length_map, List.length_take]
  exact inf_le_left

theorem rank_sorted (cands : List (RelatedSection × ℝ))
    (hrs : ∀ x ∈ cands, x.1.relevanceScore = x.2) :
    List.Sorted (fun a b : ℝ => a ≥ b)
      ((rankCandidates cands).map (fun s => s.relevanceScore)) := by
  unfold rankCandidates
  rw [List.map_map]
  show List.Pairwise _ _
  rw [List.pairwise_map]
  haveI : IsTotal (RelatedSection × ℝ) (fun a b => b.2 ≤ a.2) :=
    ⟨fun a b => le_total b.2 a.2⟩
  haveI : IsTrans (RelatedSection × ℝ) (fun a b => b.2 ≤ a.2) :=
    ⟨fun _ _ _ hab hbc => le_trans hbc hab⟩
  have hsort := List.sorted_insertionSort (fun a b : RelatedSection × ℝ => b.2 ≤ a.2)
    cands
  have htake := List.Pairwise.sublist (List.take_sublist 5 _) hsort
  refine htake.imp_of_mem ?_
  intro a b ha hb hr
  have ha' : a ∈ cands :=
    (List.perm_insertionSort _ cands).mem_iff.mp (List.take_subset _ _ ha)
  have hb' : b ∈ cands :=
    (List.perm_insertionSort _ cands).mem_iff.mp (List.take_subset _ _ hb)
  show b.1.relevanceScore ≤ a.1.relevanceScore
  rw [hrs a ha', hrs b hb']
  exact hr

theorem rank_threshold (cands : List (RelatedSection × ℝ))
    (hth : ∀ x ∈ cands, (3 / 10 : ℝ) < x.2)
    (hrs : ∀ x ∈ cands, x.1.relevanceScore = x.2) :
    (rankCandidates cands).Forall (fun s => (3 / 10 : ℝ) < s.relevanceScore) := by
  rw [List.forall_iff_forall_mem]
  intro s hs
  obtain ⟨x, hx, hxs⟩ := mem_rankCandidates cands s hs
  rw [← hxs, hrs x hx]
  exact hth x hx

/-! ### C7 -/

/-- C7: no result of `findRelatedSections` is the query page itself — the
scan skips the exact `(currentDocId, currentPage)` pair, so every returned
section differs from it in document id or page number. -/
theorem findRelatedSections_no_self (st : EngineState)
    (stored : Option (Except Unit (List DocumentEmbedding))) (d : String)
    (p : Nat) (sel : Option String) :
    (findRelatedSections st stored d p sel).Forall
      (fun s => ¬(s.documentId = d ∧ s.pageNumber = p)) := by
  rw [List.forall_iff_forall_mem]
  intro s hs
  rw [findRelatedSections_eq, searchRelated_eq] at hs
  cases hlook : (initializeEngine st stored).documents.lookup d with
  | none =>
    rw [hlook] at hs
    simp at hs
  | some doc =>
    rw [hlook] at hs
    obtain ⟨x, hx, hxs⟩ := mem_rankCandidates _ s hs
    rw [← hxs]
    exact (mem_candidatesFor _ d p _ _ x hx).2.2

/-! ### C6 -/

/-- C6: every query returns at most 5 sections, sorted non-increasingly by
relevance score, and every returned section has relevance score strictly
greater than the fixed threshold `0.3`. -/
theorem findRelatedSections_threshold_top5_sorted (st : EngineState)
    (stored : Option (Except Unit (List DocumentEmbedding))) (d : String)
    (p : Nat) (sel : Option String) :
    (findRelatedSections st stored d p sel).length ≤ 5 ∧
    List.Sorted (fun a b : ℝ => a ≥ b)
      ((findRelatedSections st stored d p sel).map (fun s => s.relevanceScore)) ∧
    (findRelatedSections st stored d p sel).Forall
      (fun s => (3 / 10 : ℝ) < s.relevanceScore) := by
  rw [findRelatedSections_eq, searchRelated_eq]
  cases hlook : (initializeEngine st stored).documents.lookup d with
  | none => simp
  | some doc =>
    refine ⟨rank_length_le _, ?_, ?_⟩
    · exact rank_sorted _ (fun x hx => (mem_candidatesFor _ d p _ _ x hx).2.1)
    · exact rank_threshold _ (fun x hx => (mem_candidatesFor _ d p _ _ x hx).1)
        (fun x hx => (mem_candidatesFor _ d p _ _ x hx).2.1)

end OfflineRec

namespace OfflineRec

set_option maxRecDepth 100000

/-! ### Concrete evaluation of the score on identical one-token texts -/

theorem dotQ_replicate_zero : ∀ n : Nat,
    dotQ (List.replicate n (0 : ℚ)) (List.replicate n 0) = 0 := by
  intro n
  induction n with
  | zero => rfl
  | succ n ih =>
    rw [List.replicate_succ, dotQ_cons, ih]
    ring

theorem dotQ_single : ∀ (n i : Nat) (q : ℚ), i < n →
    dotQ ((List.replicate n (0 : ℚ)).set i q) ((List.replicate n (0 : ℚ)).set i q) =
      q * q := by
  intro n
  induction n with
  | zero => intro i q h; omega
  | succ n ih =>
    intro i q h
    cases i with
    | zero =>
      rw [List.replicate_succ, List.set_cons_zero, dotQ_cons, dotQ_replicate_zero]
      ring
    | succ i =>
      rw [List.replicate_succ, List.set_cons_succ, dotQ_cons, ih i q (by omega)]
      ring

theorem embedLoop_nil (denom index : Nat) (v : List ℚ) :
    embedLoop denom [] index v = v := rfl

theorem embedLoop_cons (denom : Nat) (wc : String × Nat) (rest : List (String × Nat))
    (index : Nat) (v : List ℚ) :
    embedLoop denom (wc :: rest) index v =
      if index + 1 > 50 then embedStep denom v wc
      else embedLoop denom rest (index + 1) (embedStep denom v wc) := rfl

theorem genEmb_abcd :
    generateSimpleEmbedding "abcd" = (List.replicate 100 (0 : ℚ)).set 74 1 := by
  have hwc : wordCounts (wordsOf "abcd") = [("abcd", 1)] := by decide
  have hlen : (wordsOf "abcd").length = 1 := by decide
  have hh : simpleHash "abcd" % 100 = 74 := by decide
  show embedLoop (wordsOf "abcd").length (wordCounts (wordsOf "abcd")) 0
    (List.replicate 100 (0 : ℚ)) = (List.replicate 100 (0 : ℚ)).set 74 1
  rw [hwc, hlen, embedLoop_cons, if_neg (by norm_num), embedLoop_nil]
  unfold embedStep addToBucket
  rw [hh, getD_replicate_zero]
  norm_num

theorem sim_abcd_self :
    calculateSimilarity (generateSimpleEmbedding "abcd") (generateSimpleEmbedding "abcd")
      (extractKeywords "abcd") (extractKeywords "abcd") = 1 := by
  have hkw : extractKeywords "abcd" = ["abcd"] := by decide
  have hdot : dotQ (generateSimpleEmbedding "abcd") (generateSimpleEmbedding "abcd") =
      1 := by
    rw [genEmb_abcd, dotQ_single 100 74 1 (by norm_num)]
    norm_num
  rw [calculateSimilarity_def, hkw, hdot]
  rw [if_pos ⟨one_ne_zero, one_ne_zero⟩]
  have hflt : ((["abcd"] : List String).filter
      (fun k => (["abcd"] : List String).contains k)).length = 1 := by decide
  rw [hflt]
  rw [Rat.cast_one, Real.sqrt_one]
  norm_num

theorem rank_ne_nil (cands : List (RelatedSection × ℝ)) (h : cands ≠ []) :
    rankCandidates cands ≠ [] := by
  unfold rankCandidates
  intro hc
  have h0 := congrArg List.length hc
  rw [List.length_map, List.length_take] at h0
  have hlen := (List.perm_insertionSort
    (fun a b : RelatedSection × ℝ => b.2 ≤ a.2) cands).length_eq
  simp only [List.length_nil] at h0
  have hne : cands.length ≠ 0 := fun hz => h (List.eq_nil_of_length_eq_zero hz)
  omega

theorem candidate_b_mem :
    (mkSection "b" (buildEntry ⟨"b", "B"⟩ ["abcd"])
        ⟨1, "abcd".take 1000, generateSimpleEmbedding "abcd", extractKeywords "abcd"⟩ 1,
      (1 : ℝ)) ∈
      candidatesFor corpusB.documents "a" 1 (generateSimpleEmbedding "abcd")
        (extractKeywords "abcd") := by
  unfold candidatesFor
  rw [List.mem_flatMap]
  refine ⟨("b", buildEntry ⟨"b", "B"⟩ ["abcd"]), by exact List.mem_singleton.mpr rfl, ?_⟩
  rw [List.mem_filterMap]
  refine ⟨⟨1, "abcd".take 1000, generateSimpleEmbedding "abcd", extractKeywords "abcd"⟩,
    by exact List.mem_singleton.mpr rfl, ?_⟩
  show (if ("b" = "a" ∧ (1 : Nat) = 1) then none
    else if calculateSimilarity (generateSimpleEmbedding "abcd")
        (generateSimpleEmbedding "abcd") (extractKeywords "abcd")
        (extractKeywords "abcd") > 3 / 10 then
      some (mkSection "b" (buildEntry ⟨"b", "B"⟩ ["abcd"])
        ⟨1, "abcd".take 1000, generateSimpleEmbedding "abcd", extractKeywords "abcd"⟩
        (calculateSimilarity (generateSimpleEmbedding "abcd")
          (generateSimpleEmbedding "abcd") (extractKeywords "abcd")
          (extractKeywords "abcd")),
        calculateSimilarity (generateSimpleEmbedding "abcd")
          (generateSimpleEmbedding "abcd") (extractKeywords "abcd")
          (extractKeywords "abcd"))
    else none) = some _
  rw [if_neg (by decide), sim_abcd_self, if_pos (by norm_num : (1 : ℝ) > 3 / 10)]

theorem scanAllPages_corpusB_ne_nil :
    scanAllPages corpusB.documents "a" 1 "abcd" ≠ [] := by
  unfold scanAllPages
  apply rank_ne_nil
  intro hnil
  have hx := candidate_b_mem
  rw [hnil] at hx
  exact absurd hx (List.not_mem_nil _)

/-! ### C2 -/

/-- C2 counterexample: with a corpus holding only document `"b"` (one page
with text `"abcd"`), the query on the unknown document id `"a"` with the
explicit query text `"abcd"` returns the empty list unconditionally, even
though the scan-and-score of the stored pages against that query text is
non-empty (document `"b"`'s page scores 1 > 0.3 against the identical
text): the lookup guard returns early, no page is scanned or scored. -/
theorem findRelatedSections_unknown_id_counterexample :
    findRelatedSections corpusB none "a" 1 (some "abcd") = [] ∧
    scanAllPages corpusB.documents "a" 1 "abcd" ≠ [] :=
  ⟨rfl, scanAllPages_corpusB_ne_nil⟩

/-- C2 amended: when `currentDocumentId` is not in the corpus the query
returns the empty list unconditionally, regardless of the explicit
`queryText`; when the id is present and a non-empty explicit `queryText`
is given, the query source is that text and the result is exactly the
scan-score-rank over every stored page (excluding the self pair). -/
theorem findRelatedSections_query_resolution
    (docs : List (String × DocumentEmbedding)) (d : String) (p : Nat) (q : String) :
    (docs.lookup d = none → ∀ sel, searchRelated docs d p sel = []) ∧
    (q ≠ "" → ∀ doc, docs.lookup d = some doc →
      searchRelated docs d p (some q) = scanAllPages docs d p q) := by
  constructor
  · intro h sel
    rw [searchRelated_eq, h]
  · intro hq doc hdoc
    rw [searchRelated_eq, hdoc]
    have hqt : queryTextOf (some q) doc p = q := by
      unfold queryTextOf jsOr
      simp [hq]
    show rankCandidates (candidatesFor docs d p
      (generateSimpleEmbedding (queryTextOf (some q) doc p))
      (extractKeywords (queryTextOf (some q) doc p))) = _
    rw [hqt]
    rfl

/-- C2 witness: the query-resolution theorem applied to the concrete
corpus holding document `"b"`: an unknown id yields the empty list, and a
known id with explicit non-empty query text runs the full scan. -/
theorem findRelatedSections_query_resolution_witness :
    searchRelated corpusB.documents "zz" 1 none = [] ∧
    searchRelated corpusB.documents "b" 1 (some "abcd") =
      scanAllPages corpusB.documents "b" 1 "abcd" :=
  ⟨(findRelatedSections_query_resolution corpusB.documents "zz" 1 "x").1 rfl none,
   (findRelatedSections_query_resolution corpusB.documents "b" 1 "abcd").2
     (by decide) (buildEntry ⟨"b", "B"⟩ ["abcd"]) rfl⟩

end OfflineRec
